import Mathlib

/-!
# Verification of the frequent / maximal / closed itemset miner

Shallow embedding of `src/main.py` (repository
`maximal_closed_frequent_itemsets`).  Items are modelled as natural
numbers: the source uses Python strings and only their total order is
load-bearing (it drives the canonical DFS pruning), so any decidable
linear order is a faithful carrier.

* a transaction is a `Finset ℕ` (Python `Set[str]`),
* a transaction collection is a `List (Finset ℕ)`,
* the inverted index `Dict[str, Set[int]]` is a function
  `ℕ → Option (Finset ℕ)`: `none` models "key absent from the dict"
  (which `compute_support` tests with `item in T_index`),
* the frequent-itemset table `Dict[int, Dict[frozenset, int]]` is
  modelled by the list of record events `(k, itemset, support)` emitted
  by the depth-first search, in emission order.  Python dict insertion
  rebuilt from this trace is faithful because (as proved below, see
  `find_frequent_sets_rec_itemsets_nodup`) no itemset is ever recorded
  twice, so `dict.update` never overwrites.
-/

namespace ItemsetMiner

/-- `compute_support(itemset, T_index)` from `src/main.py`:
`sets = [T_index[item] for item in itemset if item in T_index]`;
`if not sets: return 0`; otherwise the size of the intersection of all
the posting sets.  Items absent from the index are skipped by the
`if item in T_index` guard, exactly as in the source. -/
def compute_support (itemset : Finset ℕ) (T_index : ℕ → Option (Finset ℕ)) : ℕ :=
  if h : (itemset.filter fun i => (T_index i).isSome).Nonempty then
    ((itemset.filter fun i => (T_index i).isSome).inf' h fun i => (T_index i).getD ∅).card
  else 0

/-- `build_transactions_inverted_index(T)` from `src/main.py`: the keys of
the produced `defaultdict` are exactly the items occurring in some
transaction, and `index[item] = {idx : item ∈ T[idx]}`. -/
def build_transactions_inverted_index (T : List (Finset ℕ)) : ℕ → Option (Finset ℕ) :=
  fun item =>
    if ∃ t ∈ T, item ∈ t then
      some ((Finset.range T.length).filter fun idx => item ∈ T.getD idx ∅)
    else none

/-- The true support of an itemset: the number of transactions whose item
set is a superset of `I` (the spec's definition of Support). -/
def trueSupport (T : List (Finset ℕ)) (I : Finset ℕ) : ℕ :=
  T.countP fun t => decide (I ⊆ t)

/-- The `C_1` tally of `generate_frequent_itemsets`: for each item, the
number of transactions containing it (each transaction is a set, so the
per-transaction contribution is at most one). -/
def C1_count (T : List (Finset ℕ)) (item : ℕ) : ℕ :=
  T.countP fun t => decide (item ∈ t)

/-- All items occurring in some transaction (the candidate keys of `C_1`). -/
def all_items (T : List (Finset ℕ)) : Finset ℕ :=
  T.foldr (· ∪ ·) ∅

lemma mem_all_items {T : List (Finset ℕ)} {i : ℕ} :
    i ∈ all_items T ↔ ∃ t ∈ T, i ∈ t := by
  induction T with
  | nil => simp [all_items]
  | cons t ts ih =>
      simp only [all_items, List.foldr_cons, Finset.mem_union]
      have hfold : (List.foldr (fun a b => a ∪ b) (∅ : Finset ℕ) ts) = all_items ts := rfl
      rw [hfold, ih]
      simp

/-- Membership in the pointwise intersection computed by `Finset.inf'`. -/
lemma mem_inf'_iff {s : Finset ℕ} (h : s.Nonempty) (f : ℕ → Finset ℕ) (x : ℕ) :
    x ∈ s.inf' h f ↔ ∀ i ∈ s, x ∈ f i := by
  simp only [← Finset.singleton_subset_iff, ← Finset.le_eq_subset, Finset.le_inf'_iff]

lemma compute_support_empty (T_index : ℕ → Option (Finset ℕ)) :
    compute_support ∅ T_index = 0 := by
  simp [compute_support]

lemma compute_support_of_all_absent {S : Finset ℕ} {T_index : ℕ → Option (Finset ℕ)}
    (h : ∀ i ∈ S, T_index i = none) : compute_support S T_index = 0 := by
  have hf : S.filter (fun i => (T_index i).isSome) = ∅ := by
    refine Finset.filter_eq_empty_iff.2 ?_
    intro i hi
    simp [h i hi]
  rw [compute_support, dif_neg]
  rw [hf]
  exact Finset.not_nonempty_empty

/-- Counting over list positions equals counting over list elements. -/
lemma card_filter_range_getD (p : Finset ℕ → Prop) [DecidablePred p] :
    ∀ T : List (Finset ℕ),
      ((Finset.range T.length).filter fun idx => p (T.getD idx ∅)).card
        = T.countP fun t => decide (p t)
  | [] => by simp
  | t :: ts => by
      rw [Finset.card_filter, List.length_cons, Finset.sum_range_succ']
      simp only [List.getD_cons_succ, List.getD_cons_zero]
      rw [← Finset.card_filter, card_filter_range_getD p ts, List.countP_cons]
      simp

lemma trueSupport_anti (T : List (Finset ℕ)) {A B : Finset ℕ} (h : A ⊆ B) :
    trueSupport T B ≤ trueSupport T A := by
  refine List.countP_mono_left ?_
  intro t _ ht
  simp only [decide_eq_true_eq] at *
  exact h.trans ht

lemma buildIndex_eq_some {T : List (Finset ℕ)} {i : ℕ} (h : ∃ t ∈ T, i ∈ t) :
    build_transactions_inverted_index T i
      = some ((Finset.range T.length).filter fun idx => i ∈ T.getD idx ∅) := by
  simp [build_transactions_inverted_index, h]

lemma buildIndex_eq_none {T : List (Finset ℕ)} {i : ℕ} (h : ¬ ∃ t ∈ T, i ∈ t) :
    build_transactions_inverted_index T i = none := by
  simp only [build_transactions_inverted_index, if_neg h]

/-- On itemsets all of whose items occur in the collection, the code's
support computation agrees with the true (specification) support. -/
lemma compute_support_buildIndex (T : List (Finset ℕ)) (I : Finset ℕ)
    (hne : I.Nonempty) (hocc : ∀ i ∈ I, ∃ t ∈ T, i ∈ t) :
    compute_support I (build_transactions_inverted_index T) = trueSupport T I := by
  have hfilter : I.filter (fun i => (build_transactions_inverted_index T i).isSome) = I := by
    refine Finset.filter_true_of_mem ?_
    intro i hi
    rw [buildIndex_eq_some (hocc i hi)]
    rfl
  rw [compute_support]
  rw [dif_pos (by rw [hfilter]; exact hne)]
  have hinf : ∀ h' : (I.filter fun i =>
        (build_transactions_inverted_index T i).isSome).Nonempty,
      ((I.filter fun i => (build_transactions_inverted_index T i).isSome).inf' h'
          fun i => (build_transactions_inverted_index T i).getD ∅)
        = (Finset.range T.length).filter fun idx => I ⊆ T.getD idx ∅ := by
    intro h'
    ext x
    rw [mem_inf'_iff]
    simp only [Finset.mem_filter, Finset.mem_range, hfilter]
    constructor
    · intro hall
      obtain ⟨i0, hi0⟩ := hne
      have h0 := hall i0 hi0
      rw [buildIndex_eq_some (hocc i0 hi0)] at h0
      simp only [Option.getD_some, Finset.mem_filter, Finset.mem_range] at h0
      refine ⟨h0.1, ?_⟩
      intro i hi
      have h2 := hall i hi
      rw [buildIndex_eq_some (hocc i hi)] at h2
      simp only [Option.getD_some, Finset.mem_filter, Finset.mem_range] at h2
      exact h2.2
    · rintro ⟨hx, hsub⟩ i hi
      rw [buildIndex_eq_some (hocc i hi)]
      simp only [Option.getD_some, Finset.mem_filter, Finset.mem_range]
      exact ⟨hx, hsub hi⟩
  rw [hinf]
  exact card_filter_range_getD (fun t => I ⊆ t) T

/-- Anti-monotonicity of the code's support computation, on itemsets whose
items all occur in the transaction collection. -/
lemma compute_support_buildIndex_anti (T : List (Finset ℕ)) {A B : Finset ℕ}
    (hA : A.Nonempty) (hAB : A ⊆ B) (hocc : ∀ i ∈ B, ∃ t ∈ T, i ∈ t) :
    compute_support B (build_transactions_inverted_index T)
      ≤ compute_support A (build_transactions_inverted_index T) := by
  rw [compute_support_buildIndex T A hA (fun i hi => hocc i (hAB hi)),
      compute_support_buildIndex T B (hA.mono hAB) hocc]
  exact trueSupport_anti T hAB

/-- `find_frequent_sets_rec` from `src/main.py`, returning the list of
`(k, itemset, support)` record events in emission order (the Python
function accumulates them in the nested dict `L_rec`; since no itemset is
recorded twice — proved below — the dict content is exactly this trace).

The Python function iterates the set `remaining_items` in an unspecified
order; we fix the ascending enumeration, representing the set by its
sorted duplicate-free list.  Under that enumeration, when the loop
variable is `item`, every already-processed element is `< item`, so the
source's candidate filter `{x for x in remaining_items if x > item}`
equals `rest.filter (item < ·)` where `rest` is the not-yet-processed
suffix.  The guard `if not new_remaining: continue` and the final
`if not L_rec.get(k): return {}` of the source are both kept: the latter
is a no-op on the trace, because when no level-`k` record was emitted no
recursion happened and the trace is already empty. -/
def find_frequent_sets_rec (T_index : ℕ → Option (Finset ℕ)) (min_support : ℕ) :
    Finset ℕ → List ℕ → ℕ → List (ℕ × Finset ℕ × ℕ)
  | _, [], _ => []
  | current_itemset, item :: rest, k =>
    (if min_support ≤ compute_support (insert item current_itemset) T_index then
        (k, insert item current_itemset,
            compute_support (insert item current_itemset) T_index) ::
          (if (rest.filter fun x => decide (item < x)).isEmpty then []
           else
             find_frequent_sets_rec T_index min_support (insert item current_itemset)
               (rest.filter fun x => decide (item < x)) (k + 1))
      else [])
      ++ find_frequent_sets_rec T_index min_support current_itemset rest k
termination_by _ remaining _ => remaining.length
decreasing_by
  · simp only [List.length_cons]
    exact Nat.lt_succ_of_le (List.length_filter_le _ _)
  · simp only [List.length_cons]
    exact Nat.lt_succ_self _

/-- Fuel-indexed operational model of `find_frequent_sets_rec`: every
recursive call (loop continuation and depth extension alike) consumes one
unit of fuel, and `none` means the budget was exhausted before the
recursion bottomed out.  Structural in fuel, so it evaluates by kernel
reduction. -/
def find_frequent_sets_rec_fuel (T_index : ℕ → Option (Finset ℕ)) (min_support : ℕ) :
    ℕ → Finset ℕ → List ℕ → ℕ → Option (List (ℕ × Finset ℕ × ℕ))
  | 0, _, _, _ => none
  | _ + 1, _, [], _ => some []
  | fuel + 1, current_itemset, item :: rest, k =>
    (if min_support ≤ compute_support (insert item current_itemset) T_index then
        (if (rest.filter fun x => decide (item < x)).isEmpty then some []
         else
           find_frequent_sets_rec_fuel T_index min_support fuel
             (insert item current_itemset) (rest.filter fun x => decide (item < x))
             (k + 1)).map
          fun sub =>
            (k, insert item current_itemset,
                compute_support (insert item current_itemset) T_index) :: sub
      else some []).bind
      fun branch =>
        (find_frequent_sets_rec_fuel T_index min_support fuel current_itemset rest k).map
          fun tail => branch ++ tail

/-- Any fuel budget exceeding the number of remaining candidate items is
enough: the fueled model never exhausts its budget, and it computes
exactly what the recursive function computes. -/
lemma find_frequent_sets_rec_fuel_spec (T_index : ℕ → Option (Finset ℕ)) (min_support : ℕ) :
    ∀ (fuel : ℕ) (current_itemset : Finset ℕ) (remaining_items : List ℕ) (k : ℕ),
      remaining_items.length < fuel →
      find_frequent_sets_rec_fuel T_index min_support fuel current_itemset remaining_items k
        = some (find_frequent_sets_rec T_index min_support current_itemset remaining_items k)
  | 0, _, _, _, h => absurd h (Nat.not_lt_zero _)
  | _ + 1, current, [], k, _ => by
      rw [find_frequent_sets_rec_fuel, find_frequent_sets_rec]
  | fuel + 1, current, item :: rest, k, h => by
      have h1 : rest.length < fuel := Nat.lt_of_succ_lt_succ h
      have h2 : (rest.filter fun x => decide (item < x)).length < fuel :=
        lt_of_le_of_lt (List.length_filter_le _ _) h1
      rw [find_frequent_sets_rec_fuel, find_frequent_sets_rec,
        find_frequent_sets_rec_fuel_spec T_index min_support fuel current rest k h1]
      by_cases hfreq : min_support ≤ compute_support (insert item current) T_index
      · rw [if_pos hfreq, if_pos hfreq]
        by_cases hemp : (rest.filter fun x => decide (item < x)).isEmpty
        · rw [if_pos hemp, if_pos hemp]
          rfl
        · rw [if_neg hemp, if_neg hemp,
            find_frequent_sets_rec_fuel_spec T_index min_support fuel _ _ (k + 1) h2]
          rfl
      · rw [if_neg hfreq, if_neg hfreq]
        rfl

/-- `generate_frequent_itemsets` from `src/main.py`: tally `C_1` over the
transactions, keep the items with tally `≥ min_support` as the keys of
`L[1]`, and reassign `L` to the result of the root recursive call (the
initially built `L[1]` mapping is discarded by that reassignment; only its
keys survive, as the root `remaining_items`). -/
def generate_frequent_itemsets (T : List (Finset ℕ)) (T_index : ℕ → Option (Finset ℕ))
    (min_support : ℕ) : List (ℕ × Finset ℕ × ℕ) :=
  find_frequent_sets_rec T_index min_support ∅
    (((all_items T).filter fun item => min_support ≤ C1_count T item).sort (· ≤ ·)) 1

/-- `get_maximal_itemsets` from `src/main.py`: start from the flattened
table and drop every itemset that is a strict subset of some itemset one
level up; the remaining `(itemset, support)` pairs are returned. -/
def get_maximal_itemsets (L : List (ℕ × Finset ℕ × ℕ)) : List (Finset ℕ × ℕ) :=
  (L.filter fun r =>
      !(L.any fun other => other.1 == r.1 + 1 && decide (r.2.1 ⊂ other.2.1))).map
    fun r => r.2

/-- `get_closed_itemsets` from `src/main.py`: keep every `(itemset,
support)` pair of the table for which no itemset one level up is a strict
superset with the same support. -/
def get_closed_itemsets (L : List (ℕ × Finset ℕ × ℕ)) : List (Finset ℕ × ℕ) :=
  (L.filter fun r =>
      !(L.any fun other =>
          other.1 == r.1 + 1 && decide (r.2.1 ⊂ other.2.1) && other.2.2 == r.2.2)).map
    fun r => r.2

/-- Soundness of the depth-first search: under the call invariants
(ascending candidate list, all candidates above the current itemset, and
level = current size + 1), every emitted record `(k', J, s)` extends the
current itemset strictly, draws its new items from the candidates, carries
the code's support of `J`, which meets the threshold, and sits at the
level equal to its size. -/
lemma find_frequent_sets_rec_sound (T_index : ℕ → Option (Finset ℕ)) (min_support : ℕ) :
    ∀ (remaining_items : List ℕ) (current_itemset : Finset ℕ) (k : ℕ),
      remaining_items.Sorted (· < ·) →
      (∀ c ∈ current_itemset, ∀ x ∈ remaining_items, c < x) →
      k = current_itemset.card + 1 →
      ∀ k' J s,
        (k', J, s) ∈ find_frequent_sets_rec T_index min_support current_itemset
            remaining_items k →
        current_itemset ⊂ J ∧ (∀ j ∈ J, j ∈ current_itemset ∨ j ∈ remaining_items) ∧
          s = compute_support J T_index ∧ min_support ≤ s ∧ k' = J.card
  | [], current, k => by
      intro _ _ _ k' J s hmem
      rw [find_frequent_sets_rec] at hmem
      simp at hmem
  | item :: rest, current, k => by
      intro hsort hgt hk k' J s hmem
      have hs1 : ∀ b ∈ rest, item < b := (List.sorted_cons.1 hsort).1
      have hs2 : rest.Sorted (· < ·) := (List.sorted_cons.1 hsort).2
      have hitem : item ∉ current := fun hc =>
        lt_irrefl item (hgt item hc item (List.mem_cons_self item rest))
      rw [find_frequent_sets_rec] at hmem
      rcases List.mem_append.1 hmem with hmem | hmem
      · -- record from the branch of `item`
        by_cases hfreq :
            min_support ≤ compute_support (insert item current) T_index
        swap
        · rw [if_neg hfreq] at hmem
          simp at hmem
        rw [if_pos hfreq] at hmem
        rcases List.mem_cons.1 hmem with hhead | hinner
        · -- the head record
          simp only [Prod.mk.injEq] at hhead
          obtain ⟨rfl, rfl, rfl⟩ := hhead
          refine ⟨Finset.ssubset_insert hitem, ?_, rfl, hfreq, ?_⟩
          · intro j hj
            rcases Finset.mem_insert.1 hj with rfl | hj
            · exact Or.inr (List.mem_cons_self _ _)
            · exact Or.inl hj
          · rw [Finset.card_insert_of_not_mem hitem, hk]
        · -- a record of the deeper recursion
          by_cases hemp : (rest.filter fun x => decide (item < x)).isEmpty
          · rw [if_pos hemp] at hinner
            simp at hinner
          rw [if_neg hemp] at hinner
          have hsort' : (rest.filter fun x => decide (item < x)).Sorted (· < ·) :=
            hs2.sublist (List.filter_sublist rest)
          have hgt' : ∀ c ∈ insert item current,
              ∀ x ∈ rest.filter fun x => decide (item < x), c < x := by
            intro c hc x hx
            rw [List.mem_filter, decide_eq_true_eq] at hx
            rcases Finset.mem_insert.1 hc with rfl | hc
            · exact hx.2
            · exact hgt c hc x (List.mem_cons_of_mem item hx.1)
          have hk' : k + 1 = (insert item current).card + 1 := by
            rw [Finset.card_insert_of_not_mem hitem, hk]
          have ih := find_frequent_sets_rec_sound T_index min_support
            (rest.filter fun x => decide (item < x)) (insert item current) (k + 1)
            hsort' hgt' hk' k' J s hinner
          refine ⟨Finset.ssubset_of_subset_of_ssubset (Finset.subset_insert _ _) ih.1,
            ?_, ih.2.2⟩
          intro j hj
          rcases ih.2.1 j hj with hj' | hj'
          · rcases Finset.mem_insert.1 hj' with rfl | hj''
            · exact Or.inr (List.mem_cons_self _ _)
            · exact Or.inl hj''
          · rw [List.mem_filter] at hj'
            exact Or.inr (List.mem_cons_of_mem item hj'.1)
      · -- record from the continuation of the loop
        have ih := find_frequent_sets_rec_sound T_index min_support rest current k
          hs2 (fun c hc x hx => hgt c hc x (List.mem_cons_of_mem item hx)) hk
          k' J s hmem
        exact ⟨ih.1, fun j hj => (ih.2.1 j hj).imp id (List.mem_cons_of_mem item),
          ih.2.2⟩
termination_by remaining _ _ => remaining.length
decreasing_by
  all_goals
    simp only [List.length_cons]
    first
      | exact Nat.lt_succ_of_le (List.length_filter_le _ _)
      | exact Nat.lt_succ_self _

/-- Completeness of the depth-first search: under the call invariants, for
every nonempty extension `E` drawn from the candidate list all of whose
nonempty sub-extensions are frequent, the record for `current ∪ E` is
emitted (at the level equal to its size, with the code's support). -/
lemma find_frequent_sets_rec_complete (T_index : ℕ → Option (Finset ℕ)) (min_support : ℕ) :
    ∀ (remaining_items : List ℕ) (current_itemset : Finset ℕ) (k : ℕ) (E : Finset ℕ),
      remaining_items.Sorted (· < ·) →
      (∀ c ∈ current_itemset, ∀ x ∈ remaining_items, c < x) →
      k = current_itemset.card + 1 →
      E.Nonempty →
      (∀ e ∈ E, e ∈ remaining_items) →
      (∀ E' ⊆ E, E'.Nonempty →
        min_support ≤ compute_support (current_itemset ∪ E') T_index) →
      ((current_itemset ∪ E).card, current_itemset ∪ E,
          compute_support (current_itemset ∪ E) T_index)
        ∈ find_frequent_sets_rec T_index min_support current_itemset remaining_items k
  | [], current, k, E => by
      intro _ _ _ hE hmemE _
      obtain ⟨e, he⟩ := hE
      exact absurd (hmemE e he) (List.not_mem_nil e)
  | item :: rest, current, k, E => by
      intro hsort hgt hk hE hmemE hfreq
      have hs1 : ∀ b ∈ rest, item < b := (List.sorted_cons.1 hsort).1
      have hs2 : rest.Sorted (· < ·) := (List.sorted_cons.1 hsort).2
      have hitem : item ∉ current := fun hc =>
        lt_irrefl item (hgt item hc item (List.mem_cons_self item rest))
      rw [find_frequent_sets_rec]
      by_cases hin : item ∈ E
      · -- the branch of `item` produces (or leads to) the record
        have hfr1 : min_support ≤ compute_support (insert item current) T_index := by
          have h1 := hfreq {item} (Finset.singleton_subset_iff.2 hin)
            (Finset.singleton_nonempty item)
          rwa [Finset.union_comm, ← Finset.insert_eq] at h1
        rw [if_pos hfr1]
        refine List.mem_append_left _ ?_
        by_cases hEsing : E = {item}
        · -- the head record is the target
          subst hEsing
          have hu : current ∪ {item} = insert item current := by
            rw [Finset.union_comm, ← Finset.insert_eq]
          rw [hu, Finset.card_insert_of_not_mem hitem, ← hk]
          exact List.mem_cons_self _ _
        · -- the target lies in the deeper trace
          have hE' : (E.erase item).Nonempty := by
            rcases Finset.eq_empty_or_nonempty (E.erase item) with h0 | h0
            · exfalso
              apply hEsing
              refine Finset.Subset.antisymm ?_ (Finset.singleton_subset_iff.2 hin)
              intro e he
              rcases eq_or_ne e item with rfl | hne
              · exact Finset.mem_singleton_self e
              · exact absurd (Finset.mem_erase.2 ⟨hne, he⟩)
                  (by rw [h0]; exact Finset.not_mem_empty e)
            · exact h0
          have hmem' : ∀ e ∈ E.erase item,
              e ∈ rest.filter fun x => decide (item < x) := by
            intro e he
            have hne := Finset.ne_of_mem_erase he
            have heE := Finset.mem_of_mem_erase he
            have heR : e ∈ rest := by
              rcases List.mem_cons.1 (hmemE e heE) with rfl | h
              · exact absurd rfl hne
              · exact h
            rw [List.mem_filter, decide_eq_true_eq]
            exact ⟨heR, hs1 e heR⟩
          have hemp : ¬ (rest.filter fun x => decide (item < x)).isEmpty = true := by
            intro habs
            rw [List.isEmpty_iff] at habs
            obtain ⟨e, he⟩ := hE'
            have h2 := hmem' e he
            rw [habs] at h2
            exact List.not_mem_nil e h2
          rw [if_neg hemp]
          refine List.mem_cons_of_mem _ ?_
          have hsort' : (rest.filter fun x => decide (item < x)).Sorted (· < ·) :=
            hs2.sublist (List.filter_sublist rest)
          have hgt' : ∀ c ∈ insert item current,
              ∀ x ∈ rest.filter fun x => decide (item < x), c < x := by
            intro c hc x hx
            rw [List.mem_filter, decide_eq_true_eq] at hx
            rcases Finset.mem_insert.1 hc with rfl | hc
            · exact hx.2
            · exact hgt c hc x (List.mem_cons_of_mem item hx.1)
          have hk' : k + 1 = (insert item current).card + 1 := by
            rw [Finset.card_insert_of_not_mem hitem, hk]
          have hfreq' : ∀ E'' ⊆ E.erase item, E''.Nonempty →
              min_support ≤ compute_support (insert item current ∪ E'') T_index := by
            intro E'' hsub hne
            have heq : insert item current ∪ E'' = current ∪ insert item E'' := by
              rw [Finset.insert_union, ← Finset.union_insert]
            rw [heq]
            exact hfreq (insert item E'')
              (Finset.insert_subset hin (hsub.trans (Finset.erase_subset item E)))
              (Finset.insert_nonempty _ _)
          have ih := find_frequent_sets_rec_complete T_index min_support
            (rest.filter fun x => decide (item < x)) (insert item current) (k + 1)
            (E.erase item) hsort' hgt' hk' hE' hmem' hfreq'
          have hset : insert item current ∪ E.erase item = current ∪ E := by
            rw [Finset.insert_union, ← Finset.union_insert, Finset.insert_erase hin]
          rwa [hset] at ih
      · -- `item ∉ E`: the record comes from the loop continuation
        refine List.mem_append_right _ ?_
        have hmem' : ∀ e ∈ E, e ∈ rest := by
          intro e he
          rcases List.mem_cons.1 (hmemE e he) with rfl | h
          · exact absurd he hin
          · exact h
        exact find_frequent_sets_rec_complete T_index min_support rest current k E
          hs2 (fun c hc x hx => hgt c hc x (List.mem_cons_of_mem item hx)) hk hE
          hmem' hfreq
termination_by remaining _ _ _ => remaining.length
decreasing_by
  all_goals
    simp only [List.length_cons]
    first
      | exact Nat.lt_succ_of_le (List.length_filter_le _ _)
      | exact Nat.lt_succ_self _

/-- No itemset is ever recorded twice during a run of the depth-first
search (under the call invariants): the branch of the loop item `item`
only emits itemsets containing `item`, while the continuation of the loop
only emits itemsets avoiding it, and within one branch the head record is
a strict subset of every deeper record. -/
lemma find_frequent_sets_rec_itemsets_nodup (T_index : ℕ → Option (Finset ℕ))
    (min_support : ℕ) :
    ∀ (remaining_items : List ℕ) (current_itemset : Finset ℕ) (k : ℕ),
      remaining_items.Sorted (· < ·) →
      (∀ c ∈ current_itemset, ∀ x ∈ remaining_items, c < x) →
      k = current_itemset.card + 1 →
      ((find_frequent_sets_rec T_index min_support current_itemset
          remaining_items k).map fun r => r.2.1).Nodup
  | [], current, k => by
      intro _ _ _
      rw [find_frequent_sets_rec]
      simp
  | item :: rest, current, k => by
      intro hsort hgt hk
      have hs1 : ∀ b ∈ rest, item < b := (List.sorted_cons.1 hsort).1
      have hs2 : rest.Sorted (· < ·) := (List.sorted_cons.1 hsort).2
      have hitem : item ∉ current := fun hc =>
        lt_irrefl item (hgt item hc item (List.mem_cons_self item rest))
      have hgtrest : ∀ c ∈ current, ∀ x ∈ rest, c < x := fun c hc x hx =>
        hgt c hc x (List.mem_cons_of_mem item hx)
      have hsort' : (rest.filter fun x => decide (item < x)).Sorted (· < ·) :=
        hs2.sublist (List.filter_sublist rest)
      have hgt' : ∀ c ∈ insert item current,
          ∀ x ∈ rest.filter fun x => decide (item < x), c < x := by
        intro c hc x hx
        rw [List.mem_filter, decide_eq_true_eq] at hx
        rcases Finset.mem_insert.1 hc with rfl | hc
        · exact hx.2
        · exact hgt c hc x (List.mem_cons_of_mem item hx.1)
      have hk' : k + 1 = (insert item current).card + 1 := by
        rw [Finset.card_insert_of_not_mem hitem, hk]
      rw [find_frequent_sets_rec, List.map_append]
      refine List.Nodup.append ?_
        (find_frequent_sets_rec_itemsets_nodup T_index min_support rest current k
          hs2 hgtrest hk) ?_
      · -- the branch of `item` emits pairwise distinct itemsets
        by_cases hfreq : min_support ≤ compute_support (insert item current) T_index
        · rw [if_pos hfreq]
          by_cases hemp : (rest.filter fun x => decide (item < x)).isEmpty = true
          · rw [if_pos hemp]
            simp
          · rw [if_neg hemp, List.map_cons]
            refine List.nodup_cons.2
              ⟨?_, find_frequent_sets_rec_itemsets_nodup T_index min_support
                (rest.filter fun x => decide (item < x)) (insert item current)
                (k + 1) hsort' hgt' hk'⟩
            intro hmem
            rw [List.mem_map] at hmem
            obtain ⟨r, hr, hrEq⟩ := hmem
            have hsnd := find_frequent_sets_rec_sound T_index min_support
              (rest.filter fun x => decide (item < x)) (insert item current)
              (k + 1) hsort' hgt' hk' r.1 r.2.1 r.2.2 hr
            rw [hrEq] at hsnd
            exact lt_irrefl _ hsnd.1
        · rw [if_neg hfreq]
          simp
      · -- no itemset appears both in the branch and in the continuation
        intro J hJb hJr
        rw [List.mem_map] at hJb hJr
        obtain ⟨r, hr, hrEq⟩ := hJb
        obtain ⟨r', hr', hr'Eq⟩ := hJr
        have hitemJ : item ∈ r.2.1 := by
          by_cases hfreq : min_support ≤ compute_support (insert item current) T_index
          · rw [if_pos hfreq] at hr
            rcases List.mem_cons.1 hr with rfl | hrin
            · exact Finset.mem_insert_self _ _
            · by_cases hemp : (rest.filter fun x => decide (item < x)).isEmpty = true
              · rw [if_pos hemp] at hrin
                simp at hrin
              · rw [if_neg hemp] at hrin
                have hsnd := find_frequent_sets_rec_sound T_index min_support
                  (rest.filter fun x => decide (item < x)) (insert item current)
                  (k + 1) hsort' hgt' hk' r.1 r.2.1 r.2.2 hrin
                exact hsnd.1.subset (Finset.mem_insert_self _ _)
          · rw [if_neg hfreq] at hr
            simp at hr
        have hitemnJ : item ∉ r'.2.1 := by
          have hsnd := find_frequent_sets_rec_sound T_index min_support rest current k
            hs2 hgtrest hk r'.1 r'.2.1 r'.2.2 hr'
          intro hcon
          rcases hsnd.2.1 item hcon with h | h
          · exact hitem h
          · exact lt_irrefl item (hs1 item h)
        rw [hrEq] at hitemJ
        rw [hr'Eq] at hitemnJ
        exact hitemnJ hitemJ
termination_by remaining _ _ => remaining.length
decreasing_by
  all_goals
    simp only [List.length_cons]
    first
      | exact Nat.lt_succ_of_le (List.length_filter_le _ _)
      | exact Nat.lt_succ_self _

lemma C1_count_eq (T : List (Finset ℕ)) (i : ℕ) :
    C1_count T i = trueSupport T {i} := by
  refine List.countP_congr ?_
  intro t _
  simp [Finset.singleton_subset_iff]

/-- The characterization of the table produced by the miner: a record
`(k, I, s)` is emitted exactly when `I` is a nonempty itemset drawn from
the items occurring in `T`, its true support meets the threshold, `k` is
its size and `s` its true support. -/
lemma generate_mem_iff (T : List (Finset ℕ)) (min_support k : ℕ) (I : Finset ℕ) (s : ℕ) :
    (k, I, s) ∈ generate_frequent_itemsets T
        (build_transactions_inverted_index T) min_support ↔
      I.Nonempty ∧ (∀ i ∈ I, ∃ t ∈ T, i ∈ t) ∧ min_support ≤ trueSupport T I ∧
        k = I.card ∧ s = trueSupport T I := by
  have hsortL :
      (((all_items T).filter fun item => min_support ≤ C1_count T item).sort
          (· ≤ ·)).Sorted (· < ·) :=
    Finset.sort_sorted_lt _
  have hgt0 : ∀ c ∈ (∅ : Finset ℕ),
      ∀ x ∈ ((all_items T).filter fun item => min_support ≤ C1_count T item).sort
          (· ≤ ·), c < x :=
    fun c hc => absurd hc (Finset.not_mem_empty c)
  have hk0 : 1 = (∅ : Finset ℕ).card + 1 := by simp
  constructor
  · intro hmem
    rw [generate_frequent_itemsets] at hmem
    obtain ⟨hss, hmemJ, hsup, hms, hcard⟩ :=
      find_frequent_sets_rec_sound _ min_support _ ∅ 1 hsortL hgt0 hk0 k I s hmem
    have hne : I.Nonempty := by
      obtain ⟨x, hx, _⟩ := Finset.exists_of_ssubset hss
      exact ⟨x, hx⟩
    have hocc : ∀ i ∈ I, ∃ t ∈ T, i ∈ t := by
      intro i hi
      rcases hmemJ i hi with h | h
      · exact absurd h (Finset.not_mem_empty i)
      · rw [Finset.mem_sort, Finset.mem_filter] at h
        exact mem_all_items.1 h.1
    have hs' : s = trueSupport T I := by
      rw [hsup, compute_support_buildIndex T I hne hocc]
    exact ⟨hne, hocc, hs' ▸ hms, hcard, hs'⟩
  · rintro ⟨hne, hocc, hms, rfl, rfl⟩
    have hmemE : ∀ e ∈ I,
        e ∈ ((all_items T).filter fun item => min_support ≤ C1_count T item).sort
            (· ≤ ·) := by
      intro e he
      rw [Finset.mem_sort, Finset.mem_filter]
      refine ⟨mem_all_items.2 (hocc e he), ?_⟩
      rw [C1_count_eq]
      exact le_trans hms (trueSupport_anti T (Finset.singleton_subset_iff.2 he))
    have hfreq : ∀ E' ⊆ I, E'.Nonempty →
        min_support ≤ compute_support ((∅ : Finset ℕ) ∪ E')
          (build_transactions_inverted_index T) := by
      intro E' hsub hne'
      rw [Finset.empty_union,
        compute_support_buildIndex T E' hne' (fun i hi => hocc i (hsub hi))]
      exact le_trans hms (trueSupport_anti T hsub)
    have hcomp := find_frequent_sets_rec_complete _ min_support _ ∅ 1 I hsortL
      hgt0 hk0 hne hmemE hfreq
    rw [Finset.empty_union, compute_support_buildIndex T I hne hocc] at hcomp
    rw [generate_frequent_itemsets]
    exact hcomp

lemma mem_get_maximal_iff (L : List (ℕ × Finset ℕ × ℕ)) (I : Finset ℕ) (s : ℕ) :
    (I, s) ∈ get_maximal_itemsets L ↔
      ∃ k, (k, I, s) ∈ L ∧ ¬ ∃ r ∈ L, r.1 = k + 1 ∧ I ⊂ r.2.1 := by
  unfold get_maximal_itemsets
  rw [List.mem_map]
  constructor
  · rintro ⟨⟨k, J, s2⟩, hr, hrEq⟩
    simp only [Prod.mk.injEq] at hrEq
    obtain ⟨rfl, rfl⟩ := hrEq
    rw [List.mem_filter] at hr
    refine ⟨k, hr.1, ?_⟩
    rintro ⟨r2, hr2, h1, h2⟩
    have hp := hr.2
    simp only [Bool.not_eq_true', List.any_eq_false, Bool.and_eq_true, beq_iff_eq,
      decide_eq_true_eq, not_and] at hp
    exact hp r2 hr2 h1 h2
  · rintro ⟨k, hkIs, hno⟩
    refine ⟨(k, I, s), ?_, rfl⟩
    rw [List.mem_filter]
    refine ⟨hkIs, ?_⟩
    simp only [Bool.not_eq_true', List.any_eq_false, Bool.and_eq_true, beq_iff_eq,
      decide_eq_true_eq, not_and]
    intro r hr h1 h2
    exact hno ⟨r, hr, h1, h2⟩

lemma mem_get_closed_iff (L : List (ℕ × Finset ℕ × ℕ)) (I : Finset ℕ) (s : ℕ) :
    (I, s) ∈ get_closed_itemsets L ↔
      ∃ k, (k, I, s) ∈ L ∧ ¬ ∃ r ∈ L, r.1 = k + 1 ∧ I ⊂ r.2.1 ∧ r.2.2 = s := by
  unfold get_closed_itemsets
  rw [List.mem_map]
  constructor
  · rintro ⟨⟨k, J, s2⟩, hr, hrEq⟩
    simp only [Prod.mk.injEq] at hrEq
    obtain ⟨rfl, rfl⟩ := hrEq
    rw [List.mem_filter] at hr
    refine ⟨k, hr.1, ?_⟩
    rintro ⟨r2, hr2, h1, h2, h3⟩
    have hp := hr.2
    simp only [Bool.not_eq_true', List.any_eq_false, Bool.and_eq_true, beq_iff_eq,
      decide_eq_true_eq, not_and] at hp
    exact hp r2 hr2 ⟨h1, h2⟩ h3
  · rintro ⟨k, hkIs, hno⟩
    refine ⟨(k, I, s), ?_, rfl⟩
    rw [List.mem_filter]
    refine ⟨hkIs, ?_⟩
    simp only [Bool.not_eq_true', List.any_eq_false, Bool.and_eq_true, beq_iff_eq,
      decide_eq_true_eq, not_and]
    intro r hr h12 h3
    exact hno ⟨r, hr, h12.1, h12.2, h3⟩

/-- The squeeze argument behind the extractors' level-(k+1)-only checks:
whenever the table holds a record for `I` (at level `k`) and a record for
a strict superset `J` (at any level), it also holds a record at level
`k + 1` for an intermediate strict superset `Y ⊆ J` whose support is at
least that of `J`. -/
lemma exists_next_level_superset (T : List (Finset ℕ)) (min_support : ℕ)
    {k k' : ℕ} {I J : Finset ℕ} {s s' : ℕ}
    (hI : (k, I, s) ∈ generate_frequent_itemsets T
        (build_transactions_inverted_index T) min_support)
    (hJ : (k', J, s') ∈ generate_frequent_itemsets T
        (build_transactions_inverted_index T) min_support)
    (hss : I ⊂ J) :
    ∃ Y : Finset ℕ,
      (k + 1, Y, trueSupport T Y) ∈ generate_frequent_itemsets T
          (build_transactions_inverted_index T) min_support ∧
        I ⊂ Y ∧ Y ⊆ J ∧ trueSupport T J ≤ trueSupport T Y := by
  rw [generate_mem_iff] at hI hJ
  obtain ⟨hneI, hoccI, hmsI, hkI, hsI⟩ := hI
  obtain ⟨hneJ, hoccJ, hmsJ, hkJ, hsJ⟩ := hJ
  obtain ⟨j, hjJ, hjI⟩ := Finset.exists_of_ssubset hss
  have hYJ : insert j I ⊆ J := Finset.insert_subset hjJ hss.subset
  refine ⟨insert j I, ?_, Finset.ssubset_insert hjI, hYJ, trueSupport_anti T hYJ⟩
  rw [generate_mem_iff]
  refine ⟨Finset.insert_nonempty _ _, ?_, le_trans hmsJ (trueSupport_anti T hYJ),
    ?_, rfl⟩
  · intro i hi
    rcases Finset.mem_insert.1 hi with rfl | hi
    · exact hoccJ i hjJ
    · exact hoccI i hi
  · rw [Finset.card_insert_of_not_mem hjI, hkI]

lemma sort_eq_of (s : Finset ℕ) (l : List ℕ) (hl : l.Sorted (· < ·))
    (hmem : ∀ x, x ∈ l ↔ x ∈ s) : s.sort (· ≤ ·) = l := by
  refine List.eq_of_perm_of_sorted ?_ (Finset.sort_sorted (· ≤ ·) s) (hl.imp le_of_lt)
  refine List.perm_of_nodup_nodup_toFinset_eq (Finset.sort_nodup _ _) hl.nodup ?_
  rw [Finset.sort_toFinset]
  ext x
  rw [List.mem_toFinset]
  exact (hmem x).symm

/-- Scenario 1 of the spec: transactions `[{A,B}, {A,B}, {A}]` with
`min_support = 2`, items modelled as `A = 0`, `B = 1`; the full emitted
table. -/
lemma scenario1_generate_eval :
    generate_frequent_itemsets [{0, 1}, {0, 1}, {0}]
        (build_transactions_inverted_index [{0, 1}, {0, 1}, {0}]) 2
      = [(1, {0}, 3), (2, {0, 1}, 2), (1, {1}, 2)] := by
  have hfilter : (all_items [{0, 1}, {0, 1}, {0}]).filter
      (fun item => 2 ≤ C1_count [{0, 1}, {0, 1}, {0}] item) = ({0, 1} : Finset ℕ) := by
    decide
  have hsort : ((all_items [{0, 1}, {0, 1}, {0}]).filter
      (fun item => 2 ≤ C1_count [{0, 1}, {0, 1}, {0}] item)).sort (· ≤ ·) = [0, 1] := by
    rw [hfilter]
    refine sort_eq_of _ _ ?_ ?_
    · decide
    · intro x
      simp
  rw [generate_frequent_itemsets, hsort]
  have h1 := find_frequent_sets_rec_fuel_spec
    (build_transactions_inverted_index [{0, 1}, {0, 1}, {0}]) 2 3 ∅ [0, 1] 1
    (by decide)
  have h2 : find_frequent_sets_rec_fuel
      (build_transactions_inverted_index [{0, 1}, {0, 1}, {0}]) 2 3 ∅ [0, 1] 1
      = some [(1, insert 0 ∅, compute_support (insert 0 ∅)
                (build_transactions_inverted_index [{0, 1}, {0, 1}, {0}])),
              (2, insert 1 (insert 0 ∅), compute_support (insert 1 (insert 0 ∅))
                (build_transactions_inverted_index [{0, 1}, {0, 1}, {0}])),
              (1, insert 1 ∅, compute_support (insert 1 ∅)
                (build_transactions_inverted_index [{0, 1}, {0, 1}, {0}]))] := rfl
  have h3 : [((1 : ℕ), insert 0 (∅ : Finset ℕ), compute_support (insert 0 ∅)
                (build_transactions_inverted_index [{0, 1}, {0, 1}, {0}])),
             ((2 : ℕ), insert 1 (insert 0 ∅), compute_support (insert 1 (insert 0 ∅))
                (build_transactions_inverted_index [{0, 1}, {0, 1}, {0}])),
             ((1 : ℕ), insert 1 ∅, compute_support (insert 1 ∅)
                (build_transactions_inverted_index [{0, 1}, {0, 1}, {0}]))]
      = [(1, {0}, 3), (2, {0, 1}, 2), (1, {1}, 2)] := by
    decide
  exact (Option.some.inj (h1.symm.trans h2)).trans h3

/-- C1: for every transaction collection `T`, the inverted index built
from `T`, and every `min_support ≥ 0`, the table returned by
`generate_frequent_itemsets` holds a record `(k, I, s)` exactly when `I`
is a nonempty size-`k` itemset drawn from the items occurring in `T`
whose true support (number of transactions whose item set is a superset
of `I`) meets `min_support`, and `s` is that true support; in particular
a size `k` occurs in the table exactly when some size-`k` itemset is
frequent. -/
theorem generate_frequent_itemsets_table_spec (T : List (Finset ℕ))
    (min_support k : ℕ) (I : Finset ℕ) (s : ℕ) :
    (k, I, s) ∈ generate_frequent_itemsets T
        (build_transactions_inverted_index T) min_support ↔
      I.Nonempty ∧ (∀ i ∈ I, ∃ t ∈ T, i ∈ t) ∧ min_support ≤ trueSupport T I ∧
        k = I.card ∧ s = trueSupport T I :=
  generate_mem_iff T min_support k I s

/-- C2 (counterexample): `compute_support` does not treat an item absent
from the index as an empty posting set; on the index of `[{0}]` the
itemset `{0, 1}` contains the absent item `1`, yet the support computed
is `1`, not `0` — the absent item is simply skipped. -/
theorem compute_support_absent_item_counterexample :
    build_transactions_inverted_index [{0}] 1 = none ∧
      (1 : ℕ) ∈ ({0, 1} : Finset ℕ) ∧
      compute_support {0, 1} (build_transactions_inverted_index [{0}]) = 1 := by
  refine ⟨?_, by decide, by decide⟩
  exact buildIndex_eq_none (by decide)

/-- C2 (amended): `compute_support` skips items absent from the index;
only when every item of the itemset is absent does the list of posting
sets come out empty, in which case the function returns support `0`. -/
theorem compute_support_all_absent (S : Finset ℕ) (T_index : ℕ → Option (Finset ℕ))
    (h : ∀ i ∈ S, T_index i = none) : compute_support S T_index = 0 :=
  compute_support_of_all_absent h

theorem compute_support_all_absent_witness :
    (∀ i ∈ ({1} : Finset ℕ), build_transactions_inverted_index [{0}] i = none) ∧
      compute_support {1} (build_transactions_inverted_index [{0}]) = 0 :=
  ⟨fun i hi => by fin_cases hi; exact buildIndex_eq_none (by decide),
    compute_support_all_absent {1} (build_transactions_inverted_index [{0}])
      (fun i hi => by fin_cases hi; exact buildIndex_eq_none (by decide))⟩

/-- C3: on every table produced by `generate_frequent_itemsets`,
`get_maximal_itemsets` returns exactly the `(itemset, support)` pairs of
the flattened table for which no strict superset occurs anywhere in the
table — the code's level-`(k+1)`-only check is equivalent to checking all
higher levels. -/
theorem get_maximal_itemsets_spec (T : List (Finset ℕ)) (min_support : ℕ)
    (I : Finset ℕ) (s : ℕ) :
    (I, s) ∈ get_maximal_itemsets (generate_frequent_itemsets T
        (build_transactions_inverted_index T) min_support) ↔
      (∃ k, (k, I, s) ∈ generate_frequent_itemsets T
          (build_transactions_inverted_index T) min_support) ∧
        ∀ k' J s', (k', J, s') ∈ generate_frequent_itemsets T
            (build_transactions_inverted_index T) min_support → ¬ I ⊂ J := by
  rw [mem_get_maximal_iff]
  constructor
  · rintro ⟨k, hkIs, hno⟩
    refine ⟨⟨k, hkIs⟩, ?_⟩
    intro k' J s' hJ hss
    obtain ⟨Y, hY, hIY, -, -⟩ := exists_next_level_superset T min_support hkIs hJ hss
    exact hno ⟨(k + 1, Y, trueSupport T Y), hY, rfl, hIY⟩
  · rintro ⟨⟨k, hkIs⟩, hall⟩
    exact ⟨k, hkIs, fun ⟨r, hr, _, h2⟩ => hall r.1 r.2.1 r.2.2 hr h2⟩

/-- C4: on every table produced by `generate_frequent_itemsets`,
`get_closed_itemsets` returns exactly the `(itemset, support)` pairs of
the flattened table every strict superset of which anywhere in the table
has strictly lower support — the code's equal-support level-`(k+1)`-only
check is equivalent to checking all higher levels. -/
theorem get_closed_itemsets_spec (T : List (Finset ℕ)) (min_support : ℕ)
    (I : Finset ℕ) (s : ℕ) :
    (I, s) ∈ get_closed_itemsets (generate_frequent_itemsets T
        (build_transactions_inverted_index T) min_support) ↔
      (∃ k, (k, I, s) ∈ generate_frequent_itemsets T
          (build_transactions_inverted_index T) min_support) ∧
        ∀ k' J s', (k', J, s') ∈ generate_frequent_itemsets T
            (build_transactions_inverted_index T) min_support → I ⊂ J → s' < s := by
  rw [mem_get_closed_iff]
  constructor
  · rintro ⟨k, hkIs, hno⟩
    refine ⟨⟨k, hkIs⟩, ?_⟩
    intro k' J s' hJ hss
    have hI' := (generate_mem_iff T min_support k I s).1 hkIs
    have hJ' := (generate_mem_iff T min_support k' J s').1 hJ
    have hle : s' ≤ s := by
      rw [hI'.2.2.2.2, hJ'.2.2.2.2]
      exact trueSupport_anti T hss.subset
    rcases lt_or_eq_of_le hle with h | h
    · exact h
    · exfalso
      obtain ⟨Y, hY, hIY, hYJ, hts⟩ :=
        exists_next_level_superset T min_support hkIs hJ hss
      apply hno
      refine ⟨(k + 1, Y, trueSupport T Y), hY, rfl, hIY, ?_⟩
      have h1 : trueSupport T Y ≤ s := by
        rw [hI'.2.2.2.2]
        exact trueSupport_anti T hIY.subset
      have h2 : s ≤ trueSupport T Y := by
        rw [← h, hJ'.2.2.2.2]
        exact hts
      exact le_antisymm h1 h2
  · rintro ⟨⟨k, hkIs⟩, hall⟩
    refine ⟨k, hkIs, ?_⟩
    rintro ⟨r, hr, h1, h2, h3⟩
    exact lt_irrefl s (h3 ▸ hall r.1 r.2.1 r.2.2 hr h2)

/-- C5 (counterexample): anti-monotonicity fails for the empty itemset:
over `T = [{0}]` both `∅` and `{0}` are present (contained in a
transaction, all items occurring), `∅ ⊆ {0}`, yet the code computes
support `0` for `∅` and `1` for `{0}`. -/
theorem compute_support_antimono_counterexample :
    ((∅ : Finset ℕ) ⊆ {0}) ∧ (∃ t ∈ [({0} : Finset ℕ)], (∅ : Finset ℕ) ⊆ t) ∧
      (∀ i ∈ (∅ : Finset ℕ), ∃ t ∈ [({0} : Finset ℕ)], i ∈ t) ∧
      (∃ t ∈ [({0} : Finset ℕ)], ({0} : Finset ℕ) ⊆ t) ∧
      compute_support ∅ (build_transactions_inverted_index [{0}])
        < compute_support {0} (build_transactions_inverted_index [{0}]) := by
  refine ⟨by decide, by decide, by decide, by decide, by decide⟩

/-- C5 (amended): anti-monotonicity of `compute_support` on the index
built from `T`, for nonempty `A ⊆ B` whose items occur in `T`. -/
theorem compute_support_antimono (T : List (Finset ℕ)) (A B : Finset ℕ)
    (hA : A.Nonempty) (hAB : A ⊆ B) (hB : ∀ i ∈ B, ∃ t ∈ T, i ∈ t) :
    compute_support B (build_transactions_inverted_index T)
      ≤ compute_support A (build_transactions_inverted_index T) :=
  compute_support_buildIndex_anti T hA hAB hB

theorem compute_support_antimono_witness :
    (({0} : Finset ℕ).Nonempty) ∧ (({0} : Finset ℕ) ⊆ {0, 1}) ∧
      (∀ i ∈ ({0, 1} : Finset ℕ), ∃ t ∈ [({0, 1} : Finset ℕ)], i ∈ t) ∧
      compute_support {0, 1} (build_transactions_inverted_index [{0, 1}])
        ≤ compute_support {0} (build_transactions_inverted_index [{0, 1}]) :=
  ⟨by decide, by decide, by decide,
    compute_support_antimono [{0, 1}] {0} {0, 1} (by decide) (by decide) (by decide)⟩

/-- C6: no itemset is recorded twice across a whole run of the miner:
the itemsets of the emitted table are pairwise distinct. -/
theorem generate_frequent_itemsets_no_duplicates (T : List (Finset ℕ))
    (T_index : ℕ → Option (Finset ℕ)) (min_support : ℕ) :
    ((generate_frequent_itemsets T T_index min_support).map fun r => r.2.1).Nodup := by
  rw [generate_frequent_itemsets]
  exact find_frequent_sets_rec_itemsets_nodup T_index min_support _ ∅ 1
    (Finset.sort_sorted_lt _) (fun c hc => absurd hc (Finset.not_mem_empty c))
    (by simp)

/-- C7 (counterexample): on transactions `[{A,B}, {A,B}, {A}]` (with
`A = 0`, `B = 1`) and `min_support = 2`, the closed-itemset extraction
also returns `{A}` with support 3, so its result is not
`{{A,B} : 2}` as claimed. -/
theorem scenario1_closed_counterexample :
    ({0}, 3) ∈ get_closed_itemsets (generate_frequent_itemsets [{0, 1}, {0, 1}, {0}]
        (build_transactions_inverted_index [{0, 1}, {0, 1}, {0}]) 2) ∧
      (({0} : Finset ℕ), (3 : ℕ)) ∉ ([({0, 1}, 2)] : List (Finset ℕ × ℕ)) := by
  constructor
  · rw [scenario1_generate_eval]
    decide
  · decide

/-- C7 (amended): the pipeline on scenario 1 yields the table with level 1
holding `{A} ↦ 3` and `{B} ↦ 2` and level 2 holding `{A,B} ↦ 2`, maximal
itemsets `{{A,B} : 2}`, and closed itemsets `{{A} : 3, {A,B} : 2}`. -/
theorem scenario1_pipeline_eval :
    generate_frequent_itemsets [{0, 1}, {0, 1}, {0}]
        (build_transactions_inverted_index [{0, 1}, {0, 1}, {0}]) 2
      = [(1, {0}, 3), (2, {0, 1}, 2), (1, {1}, 2)] ∧
      get_maximal_itemsets (generate_frequent_itemsets [{0, 1}, {0, 1}, {0}]
          (build_transactions_inverted_index [{0, 1}, {0, 1}, {0}]) 2)
        = [({0, 1}, 2)] ∧
      get_closed_itemsets (generate_frequent_itemsets [{0, 1}, {0, 1}, {0}]
          (build_transactions_inverted_index [{0, 1}, {0, 1}, {0}]) 2)
        = [({0}, 3), ({0, 1}, 2)] := by
  refine ⟨scenario1_generate_eval, ?_, ?_⟩
  · rw [scenario1_generate_eval]
    decide
  · rw [scenario1_generate_eval]
    decide

/-- C8 (counterexample): on the index built from the one-transaction
collection `[{0}]`, `compute_support` applied to the empty itemset
returns `0`, not the number of transactions `1`. -/
theorem compute_support_empty_itemset_counterexample :
    compute_support ∅ (build_transactions_inverted_index [{0}]) = 0 ∧
      ([({0} : Finset ℕ)] : List (Finset ℕ)).length = 1 ∧ (0 : ℕ) ≠ 1 :=
  ⟨compute_support_empty _, rfl, by decide⟩

/-- C8 (amended): `compute_support` applied to the empty itemset returns
`0` on every index (its posting-set list is empty, so the guard returns
`0`); it is a total function, so it never crashes. -/
theorem compute_support_empty_itemset (T_index : ℕ → Option (Finset ℕ)) :
    compute_support ∅ T_index = 0 :=
  compute_support_empty T_index

/-- C9: `find_frequent_sets_rec` terminates on every input: running the
fuel-indexed model of the raw recursion with any fuel budget exceeding
the length of `remaining_items` never exhausts the budget (each recursive
call passes a strictly shorter candidate list), and produces the
function's value. -/
theorem find_frequent_sets_rec_terminates (T_index : ℕ → Option (Finset ℕ))
    (min_support fuel : ℕ) (current_itemset : Finset ℕ) (remaining_items : List ℕ)
    (k : ℕ) (h : remaining_items.length < fuel) :
    find_frequent_sets_rec_fuel T_index min_support fuel current_itemset
        remaining_items k
      = some (find_frequent_sets_rec T_index min_support current_itemset
          remaining_items k) :=
  find_frequent_sets_rec_fuel_spec T_index min_support fuel current_itemset
    remaining_items k h

theorem find_frequent_sets_rec_terminates_witness :
    ([0, 1] : List ℕ).length < 3 ∧
      find_frequent_sets_rec_fuel (build_transactions_inverted_index [{0, 1}]) 1 3 ∅
          [0, 1] 1
        = some (find_frequent_sets_rec (build_transactions_inverted_index [{0, 1}]) 1 ∅
            [0, 1] 1) :=
  ⟨by decide, find_frequent_sets_rec_terminates
    (build_transactions_inverted_index [{0, 1}]) 1 3 ∅ [0, 1] 1 (by decide)⟩

/-- C10: `compute_support` computes the support of the sub-itemset of
items present in the index (absent items are dropped before the
intersection), and when no item is present it returns `0`. -/
theorem compute_support_restriction_spec (S : Finset ℕ)
    (T_index : ℕ → Option (Finset ℕ)) :
    compute_support S T_index
        = compute_support (S.filter fun i => (T_index i).isSome) T_index ∧
      ((S.filter fun i => (T_index i).isSome) = ∅ → compute_support S T_index = 0) := by
  have hff : ((S.filter fun i => (T_index i).isSome).filter
        fun i => (T_index i).isSome)
      = S.filter fun i => (T_index i).isSome :=
    Finset.filter_true_of_mem fun x hx => (Finset.mem_filter.1 hx).2
  constructor
  · simp only [compute_support, hff]
  · intro h
    rw [compute_support, dif_neg]
    rw [h]
    exact Finset.not_nonempty_empty

theorem compute_support_restriction_spec_witness :
    (Finset.filter (fun i => (build_transactions_inverted_index [{0}] i).isSome)
        {1} = ∅) ∧
      compute_support {1} (build_transactions_inverted_index [{0}]) = 0 :=
  ⟨by decide,
    (compute_support_restriction_spec {1}
      (build_transactions_inverted_index [{0}])).2 (by decide)⟩

end ItemsetMiner
